import Mathlib

/-
Verification development for the contiguity/base JavaScript SDK
(src/src/index.js, first snapshot: the five-bucket update compiler).

JavaScript values are shallowly embedded as the inductive `JValue`:
objects are ordered association lists of string-keyed fields (JS object
literals collapse duplicate keys, so field lists are assumed key-unique
where the corresponding JS invariant holds), numbers are modelled as
integers (the code only ever does floor-division and addition on them),
and the distinguished JS value `undefined` is a constructor of its own
since `JSON.stringify` treats it specially.
-/

namespace ContiguityBase

inductive JValue where
  | undefined : JValue
  | null : JValue
  | bool : Bool → JValue
  | num : Int → JValue
  | str : String → JValue
  | arr : List JValue → JValue
  | obj : List (String × JValue) → JValue
deriving Repr

/-- Discriminator for the JS value `undefined`. -/
def isUndef : JValue → Bool
  | .undefined => true
  | _ => false

/-- JavaScript truthiness of a value (NaN is outside the integer model). -/
def truthy : JValue → Bool
  | .undefined => false
  | .null => false
  | .bool b => b
  | .num n => n != 0
  | .str s => s ≠ ""
  | .arr _ => true
  | .obj _ => true

/-- Property read `o[k]` on an object field list: first matching key, else
`undefined` (JS returns `undefined` for a missing property). -/
def getField : List (String × JValue) → String → JValue
  | [], _ => .undefined
  | (k, v) :: fs, key => if k = key then v else getField fs key

/-- Property write `o[k] = v` on a field list: overwrite in place when the
key exists (JS keeps the original insertion position), else append. -/
def setField : List (String × JValue) → String → JValue → List (String × JValue)
  | [], key, v => [(key, v)]
  | (k, w) :: fs, key, v =>
      if k = key then (key, v) :: fs else (k, w) :: setField fs key v

/-- The fields contributed by a spread `{ ...v }`: an object's own fields;
primitives, `null` and `undefined` contribute none (string index spreading
is outside the model). -/
def spreadFields : JValue → List (String × JValue)
  | .obj fs => fs
  | _ => []

/-- `{ ...item }`: a fresh object holding the spread fields. -/
def shallowCopy (v : JValue) : JValue := .obj (spreadFields v)

/-- Property write lifted to a `JValue` (identity on non-objects; the code
only ever writes fields of objects it just copied). -/
def setFieldJ (v : JValue) (k : String) (x : JValue) : JValue :=
  match v with
  | .obj fs => .obj (setField fs k x)
  | other => other

def isArray : JValue → Bool
  | .arr _ => true
  | _ => false

def isObjV : JValue → Bool
  | .obj _ => true
  | _ => false

/-- Top-level keys of an object value. -/
def objKeys : JValue → List String
  | .obj fs => fs.map Prod.fst
  | _ => []

mutual
/-- The value denoted by `JSON.parse(JSON.stringify v)`: object fields
whose value is `undefined` are dropped, array elements that are
`undefined` become `null` (`JSON.stringify` semantics). -/
def jsonify : JValue → JValue
  | .undefined => .undefined
  | .null => .null
  | .bool b => .bool b
  | .num n => .num n
  | .str s => .str s
  | .arr xs => .arr (jsonifyArr xs)
  | .obj fs => .obj (jsonifyObj fs)

def jsonifyArr : List JValue → List JValue
  | [] => []
  | x :: xs =>
      (if isUndef (jsonify x) then .null else jsonify x) :: jsonifyArr xs

def jsonifyObj : List (String × JValue) → List (String × JValue)
  | [] => []
  | (k, v) :: fs =>
      if isUndef (jsonify v) then jsonifyObj fs
      else (k, jsonify v) :: jsonifyObj fs
end

/-! ### Operation descriptor builders (class `Util`) -/

/-- `Util.increment(value = 1)`: the tagged increment descriptor. -/
def Util.increment (value : JValue := .num 1) : JValue :=
  .obj [("__op", .str "increment"), ("value", value)]

/-- `Util.append(value)`: the tagged append descriptor. -/
def Util.append (value : JValue) : JValue :=
  .obj [("__op", .str "append"), ("value", value)]

/-- `Util.prepend(value)`: the tagged prepend descriptor. -/
def Util.prepend (value : JValue) : JValue :=
  .obj [("__op", .str "prepend"), ("value", value)]

/-- `Util.trim()`: the tagged trim descriptor; it carries no `value` field. -/
def Util.trim : JValue :=
  .obj [("__op", .str "trim")]

/-- The delete descriptor shape matched by `update`'s switch
(`case "delete"`). `Util` itself defines no delete factory; callers pass
an object of this shape. -/
def deleteOp : JValue :=
  .obj [("__op", .str "delete")]

/-! ### Expiration handling -/

/-- Expiration options `{ expireIn?, expireAt? }`. The model restricts both
to numbers: `expireIn` in seconds, `expireAt` as the millisecond timestamp
`new Date(expireAt).getTime()` that the code derives from the caller's
date/number. `none` is an absent option (JS `undefined`). -/
structure ExpOptions where
  expireIn : Option Int := none
  expireAt : Option Int := none
deriving Repr

/-- JS truthiness of a numeric option: absent and `0` are falsy. -/
def truthyOptInt : Option Int → Bool
  | none => false
  | some n => n != 0

/-- The guard `options.expireIn || options.expireAt` used by `put`,
`insert` and `update` before injecting `__expires`. -/
def expGuard (opts : ExpOptions) : Bool :=
  truthyOptInt opts.expireIn || truthyOptInt opts.expireAt

/-- `calculateExpires(expireIn, expireAt)`: truthy `expireAt` wins and
yields `Math.floor(getTime() / 1000)`; else truthy `expireIn` yields
`Math.floor(Date.now() / 1000) + expireIn`; else `undefined`. The ambient
clock `Date.now()` (milliseconds) is passed in as `now`. -/
def calculateExpires (now : Int) (expireIn expireAt : Option Int) : Option Int :=
  if truthyOptInt expireAt then
    expireAt.map (fun t => Int.fdiv t 1000)
  else if truthyOptInt expireIn then
    expireIn.map (fun s => Int.fdiv now 1000 + s)
  else none

/-- An optional number as a JS value (`none` is `undefined`). -/
def optToJValue : Option Int → JValue
  | none => .undefined
  | some n => .num n

/-! ### The update compiler (`Base.update`) -/

/-- The five-bucket compiled update record built by `Base.update`. -/
structure CompiledUpdate where
  set : List (String × JValue)
  increment : List (String × JValue)
  append : List (String × JValue)
  prepend : List (String × JValue)
  delete : List String
deriving Repr

def emptyCompiled : CompiledUpdate :=
  { set := [], increment := [], append := [], prepend := [], delete := [] }

/-- The `__op` tag of a would-be descriptor (`value.__op`). -/
def descOp : JValue → JValue
  | .obj fs => getField fs "__op"
  | _ => .undefined

/-- The payload of a would-be descriptor (`value.value`). -/
def descValue : JValue → JValue
  | .obj fs => getField fs "value"
  | _ => .undefined

/-- `typeof value === "object"` (true for objects, arrays and `null`). -/
def typeofObject : JValue → Bool
  | .null => true
  | .arr _ => true
  | .obj _ => true
  | _ => false

/-- The test `value && typeof value === "object" && value.__op` that decides
whether an update entry is an operation descriptor. -/
def isDescriptor (v : JValue) : Bool :=
  truthy v && typeofObject v && truthy (descOp v)

/-- The strict comparison `value.__op === s` of the switch scrutinee with a
case label. -/
def opIs (v : JValue) (s : String) : Bool :=
  match descOp v with
  | .str t => t = s
  | _ => false

/-- One iteration of `update`'s loop over `Object.entries(updates)`:
route the entry into a bucket by its `__op` tag (the `default` switch arm
sends unknown tags, `trim` included, to `set` with `value.value`). -/
def processEntry (acc : CompiledUpdate) (field : String) (value : JValue) :
    CompiledUpdate :=
  if isDescriptor value then
    if opIs value "increment" then
      { acc with increment := setField acc.increment field (descValue value) }
    else if opIs value "append" then
      { acc with append := setField acc.append field (descValue value) }
    else if opIs value "prepend" then
      { acc with prepend := setField acc.prepend field (descValue value) }
    else if opIs value "delete" then
      { acc with delete := acc.delete ++ [field] }
    else
      { acc with set := setField acc.set field (descValue value) }
  else
    { acc with set := setField acc.set field value }

/-- The whole loop of `Base.update`: `Object.entries(updates)` is the given
entry list (JS object semantics guarantee its keys are distinct). -/
def processUpdates (entries : List (String × JValue)) : CompiledUpdate :=
  entries.foldl (fun acc e => processEntry acc e.1 e.2) emptyCompiled

/-- The compiled update as the JS object sent on the wire. -/
def CompiledUpdate.toJValue (pu : CompiledUpdate) : JValue :=
  .obj [("set", .obj pu.set),
        ("increment", .obj pu.increment),
        ("append", .obj pu.append),
        ("prepend", .obj pu.prepend),
        ("delete", .arr (pu.delete.map JValue.str))]

/-- The request body `{ updates: processedUpdates }` built by `Base.update`,
including the `set.__expires` injection behind the expiration guard. -/
def updatePayload (entries : List (String × JValue)) (opts : ExpOptions)
    (now : Int) : JValue :=
  let pu := processUpdates entries
  let ex := optToJValue (calculateExpires now opts.expireIn opts.expireAt)
  let pu := if expGuard opts then { pu with set := setField pu.set "__expires" ex } else pu
  .obj [("updates", pu.toJValue)]

/-! ### Item normalization (`Base.put`, `Base.insert`, `Base.putMany`) -/

/-- The `itemsArray` built by `Base.put` before the expiration pass:
a list argument is shallow-copied element-wise and the `key` argument is
ignored; a single item becomes `[{ ...items, key }]` (note the `key`
property is written unconditionally, `null` by default). -/
def putItemsArray (items key : JValue) : List JValue :=
  match items with
  | .arr xs => xs.map shallowCopy
  | v => [.obj (setField (spreadFields v) "key" key)]

/-- The request body `{ items: itemsArray }` of `Base.put`, after the
`forEach` that injects `__expires` behind the expiration guard. -/
def putPayload (items key : JValue) (opts : ExpOptions) (now : Int) : JValue :=
  .obj [("items", .arr ((putItemsArray items key).map (fun item =>
    if expGuard opts then
      setFieldJ item "__expires"
        (optToJValue (calculateExpires now opts.expireIn opts.expireAt))
    else item)))]

/-- The item built by `Base.insert` before the expiration step:
`{ ...item }` plus `key` only when the `key` argument is truthy. -/
def insertItemBase (item key : JValue) : JValue :=
  if truthy key then setFieldJ (shallowCopy item) "key" key
  else shallowCopy item

/-- The request body `{ item: itemToInsert }` of `Base.insert`. -/
def insertPayload (item key : JValue) (opts : ExpOptions) (now : Int) : JValue :=
  let base := insertItemBase item key
  .obj [("item",
    if expGuard opts then
      setFieldJ base "__expires"
        (optToJValue (calculateExpires now opts.expireIn opts.expireAt))
    else base)]

/-- The message of the error `Base.putMany` throws on a bad argument. -/
def putManyMsg : String :=
  "putMany requires an array of items with at least one item"

/-- `Base.putMany`: throws unless the argument is a non-empty array, then
forwards to `this.put(items)` (key `null`, empty options). The thrown
error is modelled as `Except.error`. -/
def putMany (items : JValue) (now : Int) : Except String JValue :=
  match items with
  | .arr xs =>
      if xs.length = 0 then .error putManyMsg
      else .ok (putPayload (.arr xs) .null {} now)
  | _ => .error putManyMsg

/-! ### Query envelope and result unwrapping (`Base.fetch`) -/

/-- The `queryParams` object built by `Base.fetch`: each of the three keys
holds `arg || undefined`. -/
def queryParams (query limit last : JValue) : JValue :=
  .obj [("query", if truthy query then query else .undefined),
        ("limit", if truthy limit then limit else .undefined),
        ("last", if truthy last then last else .undefined)]

/-- JS property access `v[k]` as an operation that can throw: reading a
property of `undefined` or `null` raises a `TypeError`. -/
def getProp : JValue → String → Except String JValue
  | .undefined, k =>
      .error ("TypeError: Cannot read properties of undefined (reading "
        ++ k ++ ")")
  | .null, k =>
      .error ("TypeError: Cannot read properties of null (reading "
        ++ k ++ ")")
  | .obj fs, k => .ok (getField fs k)
  | _, _ => .ok .undefined

/-- The result projection at the end of `Base.fetch`:
`{ items: response.items, last: response.last, count: response.count }`. -/
def unwrapFetchResult (response : JValue) : Except String JValue := do
  let items ← getProp response "items"
  let lastV ← getProp response "last"
  let count ← getProp response "count"
  pure (.obj [("items", items), ("last", lastV), ("count", count)])

def isOkE : Except String JValue → Bool
  | .ok _ => true
  | .error _ => false

/-! ### The transport boundary (`Base._fetch`) -/

/-- What the HTTP call inside `Base._fetch` can come back with: a response
(status, raw body text, parsed JSON body) or a thrown network error. -/
inductive HttpOutcome where
  | response : Nat → String → JValue → HttpOutcome
  | networkError : String → HttpOutcome

/-- `Response.ok` of the fetch API: status in the 2xx range. -/
def respOk (status : Nat) : Bool := 200 ≤ status && status ≤ 299

/-- The result and console output of `Base._fetch`'s response handling:
2xx yields the parsed body; 404 yields `undefined` silently; any other
status yields `undefined` after logging the status and body text; a
network error is caught and yields `undefined` (logged only in debug
mode). No branch throws. -/
def httpFetch (debug : Bool) (outcome : HttpOutcome) : JValue × List String :=
  match outcome with
  | .networkError msg =>
      (.undefined, if debug then ["Request failed: " ++ msg] else [])
  | .response status bodyText body =>
      if respOk status then (body, [])
      else if status = 404 then (.undefined, [])
      else (.undefined,
        ["HTTP error! status: " ++ toString status ++ ", body: " ++ bodyText])

/-! ### Reference-level model of `Base.put`'s list branch (for the
aliasing/frame claims). Caller-owned items live in a heap of objects
addressed by index; `put` first allocates a shallow copy of every list
element (`items.map(item => ({ ...item }))`) and then runs the guarded
`forEach` mutation over the fresh copies only. -/

/-- An object's own fields, as stored in the heap. -/
abbrev Obj := List (String × JValue)

structure Heap where
  cells : List Obj
deriving Repr

/-- Dereference an address (addresses handed to the SDK are always live,
so the default never fires for them). -/
def Heap.read (h : Heap) (a : Nat) : Obj := (h.cells[a]?).getD []

/-- Allocate a fresh object, returning its address. -/
def Heap.alloc (h : Heap) (o : Obj) : Heap × Nat :=
  (⟨h.cells ++ [o]⟩, h.cells.length)

/-- In-place property write `obj[k] = v` at an address. -/
def Heap.writeField (h : Heap) (a : Nat) (k : String) (v : JValue) : Heap :=
  ⟨h.cells.set a (setField (h.read a) k v)⟩

/-- `items.map(item => ({ ...item }))`: allocate a shallow copy of every
element, left to right. -/
def copyItems (h : Heap) : List Nat → Heap × List Nat
  | [] => (h, [])
  | a :: rest =>
      let p := h.alloc (h.read a)
      let q := copyItems p.1 rest
      (q.1, p.2 :: q.2)

/-- The `forEach` over `itemsArray` that writes `__expires` behind the
expiration guard. -/
def applyExpiresAll (opts : ExpOptions) (now : Int) (h : Heap)
    (addrs : List Nat) : Heap :=
  addrs.foldl (fun hh a =>
    if expGuard opts then
      hh.writeField a "__expires"
        (optToJValue (calculateExpires now opts.expireIn opts.expireAt))
    else hh) h

/-- `Base.put`'s list branch at the heap level. The `key` argument is bound
but never consulted in this branch, exactly as in the source. -/
def putHeap (h : Heap) (itemAddrs : List Nat) (key : JValue)
    (opts : ExpOptions) (now : Int) : Heap × List Nat :=
  let c := copyItems h itemAddrs
  (applyExpiresAll opts now c.1 c.2, c.2)

/-! ## Buckets and routing (specification-side views of the compiler) -/

/-- The five buckets of a compiled update. -/
inductive Bucket where
  | set | increment | append | prepend | delete
deriving Repr, DecidableEq

/-- The keys a compiled update holds in a given bucket. -/
def keysOf (pu : CompiledUpdate) : Bucket → List String
  | .set => pu.set.map Prod.fst
  | .increment => pu.increment.map Prod.fst
  | .append => pu.append.map Prod.fst
  | .prepend => pu.prepend.map Prod.fst
  | .delete => pu.delete

/-- The bucket `processEntry` routes a value into, read off the same tests
the code performs. -/
def route (v : JValue) : Bucket :=
  if isDescriptor v then
    if opIs v "increment" then .increment
    else if opIs v "append" then .append
    else if opIs v "prepend" then .prepend
    else if opIs v "delete" then .delete
    else .set
  else .set

/-! ## Helper lemmas about field lists -/

theorem mem_keys_setField (fs : List (String × JValue)) (k f : String)
    (v : JValue) :
    f ∈ (setField fs k v).map Prod.fst ↔ f ∈ fs.map Prod.fst ∨ f = k := by
  induction fs with
  | nil => simp [setField]
  | cons p rest ih =>
    obtain ⟨k', v'⟩ := p
    by_cases h : k' = k
    · subst h
      simp [setField]
      tauto
    · simp [setField, h, ih]
      tauto

theorem setField_eq_append {fs : List (String × JValue)} {k : String}
    (v : JValue) (h : k ∉ fs.map Prod.fst) : setField fs k v = fs ++ [(k, v)] := by
  induction fs with
  | nil => simp [setField]
  | cons p rest ih =>
    obtain ⟨k', v'⟩ := p
    rw [List.map_cons, List.mem_cons] at h
    push_neg at h
    simp [setField, Ne.symm h.1, ih h.2]

theorem self_mem_setField (fs : List (String × JValue)) (k : String)
    (v : JValue) : (k, v) ∈ setField fs k v := by
  induction fs with
  | nil => simp [setField]
  | cons p rest ih =>
    obtain ⟨k', v'⟩ := p
    by_cases h : k' = k <;> simp [setField, h, ih]

theorem exists_mem_setField_ne {f k : String} (hf : f ≠ k)
    (fs : List (String × JValue)) (v : JValue) :
    (∃ w, (f, w) ∈ setField fs k v) ↔ (∃ w, (f, w) ∈ fs) := by
  induction fs with
  | nil => simp [setField, hf]
  | cons p rest ih =>
    obtain ⟨k', v'⟩ := p
    by_cases h : k' = k <;>
      simp [setField, h, hf, exists_or, ih]

theorem exists_mem_setField (fs : List (String × JValue)) (k : String)
    (v : JValue) (f : String) :
    (∃ w, (f, w) ∈ setField fs k v) ↔ (∃ w, (f, w) ∈ fs) ∨ f = k := by
  by_cases hf : f = k
  · constructor
    · intro _
      exact Or.inr hf
    · intro _
      exact ⟨v, by rw [hf]; exact self_mem_setField fs k v⟩
  · rw [exists_mem_setField_ne hf]
    simp [hf]

theorem getField_setField_self (fs : List (String × JValue)) (k : String)
    (v : JValue) : getField (setField fs k v) k = v := by
  induction fs with
  | nil => simp [setField, getField]
  | cons p rest ih =>
    obtain ⟨k', v'⟩ := p
    by_cases h : k' = k
    · subst h; simp [setField, getField]
    · simp [setField, getField, h, ih]

/-! ## The bucketing invariant of the update compiler -/

theorem keysOf_empty (b : Bucket) : keysOf emptyCompiled b = [] := by
  cases b <;> rfl

theorem mem_keysOf_processEntry (acc : CompiledUpdate) (g : String)
    (v : JValue) (b : Bucket) (f : String) :
    f ∈ keysOf (processEntry acc g v) b ↔
      f ∈ keysOf acc b ∨ (f = g ∧ route v = b) := by
  cases b <;>
    by_cases h1 : isDescriptor v <;>
    by_cases h2 : opIs v "increment" <;>
    by_cases h3 : opIs v "append" <;>
    by_cases h4 : opIs v "prepend" <;>
    by_cases h5 : opIs v "delete" <;>
    simp [processEntry, route, keysOf, h1, h2, h3, h4, h5, mem_keys_setField,
      exists_mem_setField]

theorem mem_keysOf_foldl (entries : List (String × JValue))
    (acc : CompiledUpdate) (f : String) (b : Bucket) :
    f ∈ keysOf (entries.foldl (fun a e => processEntry a e.1 e.2) acc) b ↔
      f ∈ keysOf acc b ∨ ∃ v, (f, v) ∈ entries ∧ route v = b := by
  induction entries generalizing acc with
  | nil => simp
  | cons e rest ih =>
    obtain ⟨g, v⟩ := e
    rw [List.foldl_cons, ih, mem_keysOf_processEntry]
    constructor
    · rintro ((hacc | ⟨rfl, hr⟩) | ⟨w, hw, hr⟩)
      · exact Or.inl hacc
      · exact Or.inr ⟨v, by simp, hr⟩
      · exact Or.inr ⟨w, by simp [hw], hr⟩
    · rintro (hacc | ⟨w, hw, hr⟩)
      · exact Or.inl (Or.inl hacc)
      · rcases List.mem_cons.mp hw with heq | hrest
        · obtain ⟨h1, h2⟩ := Prod.mk.injEq .. ▸ heq
          exact Or.inl (Or.inr ⟨h1, h2 ▸ hr⟩)
        · exact Or.inr ⟨w, hrest, hr⟩

theorem nodup_keys_functional {entries : List (String × JValue)}
    (h : (entries.map Prod.fst).Nodup) {f : String} {v w : JValue}
    (hv : (f, v) ∈ entries) (hw : (f, w) ∈ entries) : v = w := by
  induction entries with
  | nil => cases hv
  | cons e rest ih =>
    obtain ⟨g, u⟩ := e
    rw [List.map_cons, List.nodup_cons] at h
    rcases List.mem_cons.mp hv with heq | hv' <;>
      rcases List.mem_cons.mp hw with heq' | hw'
    · injection heq with e1 e2
      injection heq' with e3 e4
      exact e2.trans e4.symm
    · injection heq with e1 e2
      subst e1
      exact absurd (List.mem_map_of_mem Prod.fst hw') h.1
    · injection heq' with e3 e4
      subst e3
      exact absurd (List.mem_map_of_mem Prod.fst hv') h.1
    · exact ih h.2 hv' hw'

theorem foldl_all_plain (entries : List (String × JValue)) :
    ∀ acc : CompiledUpdate,
    (∀ p ∈ entries, isDescriptor p.2 = false) →
    ((acc.set.map Prod.fst) ++ entries.map Prod.fst).Nodup →
    entries.foldl (fun a e => processEntry a e.1 e.2) acc
      = { acc with set := acc.set ++ entries } := by
  induction entries with
  | nil => intro acc _ _; simp
  | cons e rest ih =>
    intro acc hp hd
    obtain ⟨g, v⟩ := e
    have hg : g ∉ acc.set.map Prod.fst := by
      rw [List.nodup_append] at hd
      exact fun hmem => hd.2.2 hmem (by simp)
    have hstep : processEntry acc g v = { acc with set := acc.set ++ [(g, v)] } := by
      have hpv := hp (g, v) (by simp)
      unfold processEntry
      rw [hpv]
      simp only [Bool.false_eq_true, if_false]
      rw [setField_eq_append _ hg]
    rw [List.foldl_cons, hstep,
      ih { acc with set := acc.set ++ [(g, v)] } (fun p hp' => hp p (by simp [hp']))
        (by simpa using hd)]
    simp

theorem route_of_delete {v : JValue} (h1 : isDescriptor v = true)
    (h2 : opIs v "delete" = true) : route v = .delete := by
  unfold opIs at h2
  cases hop : descOp v <;> rw [hop] at h2 <;> simp at h2
  subst h2
  simp [route, h1, opIs, hop]

theorem route_of_plain {v : JValue} (h1 : isDescriptor v = false) :
    route v = .set := by
  simp [route, h1]

/-! ## Heap lemmas for the frame property of `Base.put`'s list branch -/

theorem read_append_of_lt {cells : List Obj} {a : Nat} (L : List Obj)
    (h : a < cells.length) :
    (Heap.mk (cells ++ L)).read a = (Heap.mk cells).read a := by
  simp [Heap.read, List.getElem?_append_left h]

theorem copyItems_spec : ∀ (addrs : List Nat) (h : Heap),
    (∀ a ∈ addrs, a < h.cells.length) →
    copyItems h addrs =
      (⟨h.cells ++ addrs.map h.read⟩, List.range' h.cells.length addrs.length) := by
  intro addrs
  induction addrs with
  | nil =>
    intro h _
    simp [copyItems]
  | cons a rest ih =>
    intro h hv
    have hstep := ih ⟨h.cells ++ [h.read a]⟩
      (fun a' ha' => lt_of_lt_of_le (hv a' (List.mem_cons_of_mem a ha')) (by simp))
    have hreads : rest.map (Heap.mk (h.cells ++ [h.read a])).read = rest.map h.read :=
      List.map_congr_left (fun a' ha' =>
        read_append_of_lt [h.read a] (hv a' (List.mem_cons_of_mem a ha')))
    simp only [copyItems, Heap.alloc, hstep, hreads, List.map_cons, List.length_cons,
      List.range'_succ]
    simp [List.append_assoc]

theorem map_read_append : ∀ (L : List Obj) (cells : List Obj),
    (List.range' cells.length L.length).map (Heap.mk (cells ++ L)).read = L := by
  intro L
  induction L with
  | nil => intro cells; simp [List.range']
  | cons x L ih =>
    intro cells
    rw [List.length_cons, List.range'_succ, List.map_cons]
    congr 1
    · show ((cells ++ x :: L)[cells.length]?).getD [] = x
      rw [List.getElem?_append_right (Nat.le_refl cells.length)]
      simp
    · have hrec := ih (cells ++ [x])
      rw [show (cells ++ [x]).length = cells.length + 1 from by simp] at hrec
      rw [show cells ++ x :: L = (cells ++ [x]) ++ L from by simp]
      exact hrec

theorem foldl_id {α β : Type} (l : List β) (x : α) :
    l.foldl (fun a _ => a) x = x := by
  induction l generalizing x with
  | nil => rfl
  | cons y l ih => exact ih x

theorem applyExpiresAll_of_guard_false {opts : ExpOptions} {now : Int}
    (hg : expGuard opts = false) (addrs : List Nat) (h : Heap) :
    applyExpiresAll opts now h addrs = h := by
  unfold applyExpiresAll
  rw [show (fun (hh : Heap) (a : Nat) =>
      if expGuard opts then
        hh.writeField a "__expires"
          (optToJValue (calculateExpires now opts.expireIn opts.expireAt))
      else hh) = fun (hh : Heap) (_ : Nat) => hh from by
    funext hh a
    rw [hg]
    simp]
  exact foldl_id addrs h

/-! ## Claim theorems -/

/-- C1: the update request mapping views ↦ increment(1), tags ↦ append("x"),
bio ↦ trim(), old ↦ delete() compiles to set:{}, increment:{views:1},
append:{tags:"x"}, prepend:{}, delete:["old"] in the serialized payload.
The five-bucket schema defines no trim bucket, so the trim descriptor falls
into the switch default and lands in `set` with value `undefined` (trim
carries no `value` field), which JSON serialization then drops, leaving the
serialized `set` empty as the claim states. -/
theorem claim_C1 :
    processUpdates [("views", Util.increment (.num 1)),
        ("tags", Util.append (.str "x")), ("bio", Util.trim), ("old", deleteOp)] =
      { set := [("bio", .undefined)], increment := [("views", .num 1)],
        append := [("tags", .str "x")], prepend := [], delete := ["old"] }
    ∧ jsonify (updatePayload [("views", Util.increment (.num 1)),
        ("tags", Util.append (.str "x")), ("bio", Util.trim), ("old", deleteOp)] {} 0) =
      .obj [("updates", .obj [("set", .obj []),
        ("increment", .obj [("views", .num 1)]),
        ("append", .obj [("tags", .str "x")]),
        ("prepend", .obj []),
        ("delete", .arr [.str "old"])])] :=
  ⟨rfl, rfl⟩

/-- C2: with the distinct keys `Object.entries` guarantees, the compiled
update places each field path in exactly one bucket, the one `route`
selects; a request with no descriptor values puts every field in `set`
verbatim and leaves every other bucket empty; and a field carrying a
delete descriptor lands in the delete list and in no other bucket. -/
theorem claim_C2 (entries : List (String × JValue))
    (hnd : (entries.map Prod.fst).Nodup) :
    (∀ f v b, (f, v) ∈ entries →
      (f ∈ keysOf (processUpdates entries) b ↔ b = route v))
    ∧ ((∀ p ∈ entries, isDescriptor p.2 = false) →
        processUpdates entries =
          { set := entries, increment := [], append := [], prepend := [],
            delete := [] })
    ∧ (∀ f v, (f, v) ∈ entries → isDescriptor v = true →
        opIs v "delete" = true →
        f ∈ (processUpdates entries).delete
        ∧ ∀ b, b ≠ Bucket.delete → f ∉ keysOf (processUpdates entries) b) := by
  have hmem : ∀ f v b, (f, v) ∈ entries →
      (f ∈ keysOf (processUpdates entries) b ↔ b = route v) := by
    intro f v b hfv
    unfold processUpdates
    rw [mem_keysOf_foldl, keysOf_empty]
    simp only [List.not_mem_nil, false_or]
    constructor
    · rintro ⟨w, hw, hr⟩
      obtain rfl := nodup_keys_functional hnd hfv hw
      exact hr.symm
    · rintro rfl
      exact ⟨v, hfv, rfl⟩
  refine ⟨hmem, ?_, ?_⟩
  · intro hp
    exact foldl_all_plain entries emptyCompiled hp (by simpa using hnd)
  · intro f v hfv hdesc hdel
    have hr := route_of_delete hdesc hdel
    refine ⟨(hmem f v Bucket.delete hfv).mpr hr.symm, ?_⟩
    intro b hb hmemb
    exact hb (((hmem f v b hfv).mp hmemb).trans hr)

/-- Witness for C2 at concrete requests: the delete descriptor's field
reaches the delete list, and an all-plain request fills `set` verbatim. -/
theorem claim_C2_witness :
    ("old" ∈ (processUpdates [("a", JValue.num 1), ("old", deleteOp)]).delete)
    ∧ processUpdates [("a", JValue.num 1)] =
        { set := [("a", JValue.num 1)], increment := [], append := [],
          prepend := [], delete := [] } := by
  constructor
  · exact ((claim_C2 [("a", JValue.num 1), ("old", deleteOp)] (by simp)).2.2
      "old" deleteOp (by simp) rfl rfl).1
  · exact (claim_C2 [("a", JValue.num 1)] (by simp)).2.1 (by decide)

/-- C3 as stated is false on the code: with `expireAt = 0` present alongside
`expireIn = 5` at clock 10000 ms, `calculateExpires` skips the falsy
`expireAt` and returns `floor(10000/1000) + 5 = 15`, not `floor(0) = 0`. -/
theorem claim_C3_cex :
    calculateExpires 10000 (some 5) (some 0) = some 15
    ∧ decide (calculateExpires 10000 (some 5) (some 0) = some 0) = false :=
  ⟨rfl, rfl⟩

/-- C3 amended: `expireAt` takes precedence only when truthy (nonzero):
truthy `expireAt = T` yields `floor(T/1000)` no matter what `expireIn` is;
with `expireAt` falsy, truthy `expireIn = S` yields `floor(now/1000) + S`;
with both absent or zero the result is none. -/
theorem claim_C3 (now : Int) (eIn eAt : Option Int) :
    (∀ T : Int, T ≠ 0 →
      calculateExpires now eIn (some T) = some (Int.fdiv T 1000))
    ∧ (∀ S : Int, S ≠ 0 → truthyOptInt eAt = false →
        calculateExpires now (some S) eAt = some (Int.fdiv now 1000 + S))
    ∧ (truthyOptInt eIn = false → truthyOptInt eAt = false →
        calculateExpires now eIn eAt = none) := by
  refine ⟨?_, ?_, ?_⟩
  · intro T hT
    simp [calculateExpires, truthyOptInt, hT]
  · intro S hS hAt
    unfold calculateExpires
    rw [hAt]
    simp [truthyOptInt, hS]
  · intro hIn hAt
    unfold calculateExpires
    rw [hIn, hAt]
    simp

/-- Witness for C3 on concrete clocks and options. -/
theorem claim_C3_witness :
    calculateExpires 5000 (some 60) (some 7000) = some 7
    ∧ calculateExpires 5000 (some 60) none = some 65
    ∧ calculateExpires 5000 none none = none :=
  ⟨(claim_C3 5000 (some 60) (some 7000)).1 7000 (by decide),
   (claim_C3 5000 (some 60) none).2.1 60 (by decide) rfl,
   (claim_C3 5000 none none).2.2 rfl rfl⟩

/-- C4: the projection half of the claim holds: an object response is
unwrapped to exactly the three fields items, last, count, with every other
field dropped. The absent-response half contradicts the code: `_fetch`
signals failure with `undefined` and `fetch` then evaluates
`response.items`, which throws a TypeError instead of propagating an
absent result (the README promises the SDK returns `undefined` rather
than throwing, so the unguarded access is a slip). -/
theorem claim_C4 :
    (∀ fs, unwrapFetchResult (.obj fs) =
      .ok (.obj [("items", getField fs "items"), ("last", getField fs "last"),
        ("count", getField fs "count")]))
    ∧ unwrapFetchResult .undefined =
        .error "TypeError: Cannot read properties of undefined (reading items)"
    ∧ isOkE (unwrapFetchResult .undefined) = false := by
  exact ⟨fun fs => rfl, rfl, rfl⟩

/-- C5: at the transport boundary, a 404 response yields the absent result
with nothing logged, any other non-2xx response yields the absent result
with the response body captured in the diagnostic log line, and a network
failure is caught and also yields the absent result (logged only in debug
mode); `httpFetch` is a total function into values, so no exception
crosses this boundary. -/
theorem claim_C5 (debug : Bool) (status : Nat) (bodyText : String)
    (body : JValue) (msg : String) :
    (httpFetch debug (.response 404 bodyText body)).1 = .undefined
    ∧ (respOk status = false →
        (httpFetch debug (.response status bodyText body)).1 = .undefined)
    ∧ (respOk status = false → status ≠ 404 →
        (httpFetch debug (.response status bodyText body)).2 =
          ["HTTP error! status: " ++ toString status ++ ", body: " ++ bodyText])
    ∧ (httpFetch debug (.networkError msg)).1 = .undefined := by
  refine ⟨rfl, ?_, ?_, rfl⟩
  · intro hok
    by_cases h4 : status = 404
    · subst h4
      rfl
    · simp [httpFetch, hok, h4]
  · intro hok h4
    simp [httpFetch, hok, h4]

/-- Witness for C5 at a concrete 500 response. -/
theorem claim_C5_witness :
    (httpFetch false (.response 500 "boom" .null)).1 = .undefined
    ∧ (httpFetch false (.response 500 "boom" .null)).2 =
        ["HTTP error! status: 500, body: boom"] :=
  ⟨(claim_C5 false 500 "boom" .null "x").2.1 rfl,
   (claim_C5 false 500 "boom" .null "x").2.2.1 rfl (by decide)⟩

/-- C6: `putMany` fails loudly on a non-array or empty-array argument and
otherwise forwards the items unchanged to the `put` path (`put` shallow
copies each element, which is the identity on object values, and with empty
options modifies nothing). -/
theorem claim_C6 (v : JValue) (now : Int) (xs : List JValue) :
    (isArray v = false → putMany v now = .error putManyMsg)
    ∧ putMany (.arr []) now = .error putManyMsg
    ∧ (xs ≠ [] → putMany (.arr xs) now =
        .ok (.obj [("items", .arr (xs.map shallowCopy))]))
    ∧ ((∀ x ∈ xs, isObjV x = true) → xs.map shallowCopy = xs) := by
  refine ⟨?_, rfl, ?_, ?_⟩
  · intro h
    cases v <;> first | rfl | simp [isArray] at h
  · intro hne
    have hlen : ¬ xs.length = 0 := by
      simpa [List.length_eq_zero] using hne
    simp [putMany, hlen, putPayload, putItemsArray, expGuard, truthyOptInt]
  · intro hobj
    have hcopy : ∀ x ∈ xs, shallowCopy x = x := by
      intro x hx
      have hx' := hobj x hx
      cases x <;> simp [isObjV] at hx'
      rfl
    rw [show xs.map shallowCopy = xs.map id from
      List.map_congr_left (fun x hx => hcopy x hx), List.map_id]

/-- Witness for C6 on concrete arguments. -/
theorem claim_C6_witness :
    putMany (JValue.str "nope") 0 = .error putManyMsg
    ∧ putMany (.arr []) 0 = .error putManyMsg
    ∧ putMany (.arr [JValue.obj [("a", JValue.num 1)]]) 0 =
        .ok (.obj [("items", .arr [JValue.obj [("a", JValue.num 1)]])]) :=
  ⟨(claim_C6 (JValue.str "nope") 0 []).1 rfl,
   (claim_C6 (JValue.str "nope") 0 []).2.1,
   (claim_C6 (JValue.str "nope") 0 [JValue.obj [("a", JValue.num 1)]]).2.2.1
     (by simp)⟩

/-- C7: `put` on a list of items with no expiration, at the heap level:
the result is independent of the `key` argument (no key is injected), every
caller-owned cell is left exactly as it was (no mutation of caller
objects), the returned addresses are fresh (each element was shallow
copied), and each copy carries exactly the original fields, pre-existing
`key` fields included. -/
theorem claim_C7 (h : Heap) (addrs : List Nat) (k1 k2 : JValue)
    (opts : ExpOptions) (now : Int) (hg : expGuard opts = false)
    (hv : ∀ a ∈ addrs, a < h.cells.length) :
    putHeap h addrs k1 opts now = putHeap h addrs k2 opts now
    ∧ (∀ i, i < h.cells.length →
        (putHeap h addrs k1 opts now).1.cells[i]? = h.cells[i]?)
    ∧ (∀ o ∈ (putHeap h addrs k1 opts now).2, h.cells.length ≤ o)
    ∧ (putHeap h addrs k1 opts now).2.map (putHeap h addrs k1 opts now).1.read
        = addrs.map h.read := by
  have hput : putHeap h addrs k1 opts now =
      (⟨h.cells ++ addrs.map h.read⟩, List.range' h.cells.length addrs.length) := by
    simp only [putHeap, copyItems_spec addrs h hv,
      applyExpiresAll_of_guard_false hg]
  refine ⟨rfl, ?_, ?_, ?_⟩
  · intro i hi
    rw [hput]
    exact List.getElem?_append_left hi
  · intro o ho
    rw [hput] at ho
    obtain ⟨i, hi, hm⟩ := List.mem_range'.mp ho
    omega
  · rw [hput]
    have hmra := map_read_append (addrs.map h.read) h.cells
    rw [List.length_map] at hmra
    exact hmra

/-- Witness for C7 on a one-cell heap whose object already carries a key. -/
theorem claim_C7_witness :
    (putHeap ⟨[[("a", JValue.num 1), ("key", JValue.str "k0")]]⟩ [0]
        JValue.null {} 0).2.map
      (putHeap ⟨[[("a", JValue.num 1), ("key", JValue.str "k0")]]⟩ [0]
        JValue.null {} 0).1.read
    = [0].map (Heap.mk [[("a", JValue.num 1), ("key", JValue.str "k0")]]).read :=
  (claim_C7 ⟨[[("a", JValue.num 1), ("key", JValue.str "k0")]]⟩ [0]
    JValue.null (JValue.str "k9") {} 0 rfl (by simp)).2.2.2

theorem isUndef_jsonify (v : JValue) : isUndef (jsonify v) = isUndef v := by
  cases v <;> rfl

theorem isUndef_of_truthy {v : JValue} (h : truthy v = true) :
    isUndef v = false := by
  cases v <;> simp_all [truthy, isUndef]

/-- C8: the serialized query envelope carries each of the keys query,
limit, last exactly when the corresponding argument is truthy, so an
absent (undefined) argument leaves no key behind rather than a null one;
in particular `fetch(undefined)` with no options serializes the empty
envelope. -/
theorem claim_C8 (q l la : JValue) :
    objKeys (jsonify (queryParams q l la)) =
      (if truthy q then ["query"] else [])
        ++ (if truthy l then ["limit"] else [])
        ++ (if truthy la then ["last"] else [])
    ∧ jsonify (queryParams .undefined .undefined .undefined) = .obj [] := by
  refine ⟨?_, rfl⟩
  have hjq : ∀ v : JValue, truthy v = true → isUndef (jsonify v) = false := by
    intro v hv
    rw [isUndef_jsonify]
    exact isUndef_of_truthy hv
  have hu : isUndef JValue.undefined = true := rfl
  by_cases hq : truthy q <;> by_cases hl : truthy l <;>
    by_cases hla : truthy la <;>
    simp [queryParams, jsonify, jsonifyObj, objKeys, hq, hl, hla, hjq, hu]

/-- Witness for C8: only the truthy limit key survives serialization. -/
theorem claim_C8_witness :
    objKeys (jsonify (queryParams JValue.undefined (JValue.num 25)
      JValue.undefined)) = ["limit"] :=
  (claim_C8 JValue.undefined (JValue.num 25) JValue.undefined).1

/-- C9: a single (non-array) object put with no key argument still carries
a `key` field valued `null` in the payload item: `{ ...items, key }`
writes the `key` property unconditionally rather than omitting it. -/
theorem claim_C9 (fs : List (String × JValue)) (now : Int) :
    putPayload (.obj fs) .null {} now =
      .obj [("items", .arr [.obj (setField fs "key" .null)])]
    ∧ getField (setField fs "key" JValue.null) "key" = JValue.null :=
  ⟨rfl, getField_setField_self fs "key" JValue.null⟩

/-- Witness for C9 at a concrete keyless item. -/
theorem claim_C9_witness :
    putPayload (.obj [("a", JValue.num 1)]) .null {} 0 =
      .obj [("items", .arr [.obj [("a", JValue.num 1), ("key", JValue.null)]])] :=
  (claim_C9 [("a", JValue.num 1)] 0).1

/-- C10: a falsy expiration option (absent or zero) injects no `__expires`
anywhere: the guard `options.expireIn || options.expireAt` fails, and
`put`, `insert` and `update` each emit the payload built with the
expiration step skipped entirely. -/
theorem claim_C10 (eIn eAt : Option Int)
    (hIn : truthyOptInt eIn = false) (hAt : truthyOptInt eAt = false) :
    expGuard ⟨eIn, eAt⟩ = false
    ∧ (∀ items key now, putPayload items key ⟨eIn, eAt⟩ now =
        .obj [("items", .arr (putItemsArray items key))])
    ∧ (∀ item key now, insertPayload item key ⟨eIn, eAt⟩ now =
        .obj [("item", insertItemBase item key)])
    ∧ (∀ entries now, updatePayload entries ⟨eIn, eAt⟩ now =
        .obj [("updates", (processUpdates entries).toJValue)]) := by
  have hg : expGuard ⟨eIn, eAt⟩ = false := by
    simp [expGuard, hIn, hAt]
  refine ⟨hg, ?_, ?_, ?_⟩
  · intro items key now
    simp [putPayload, hg]
  · intro item key now
    simp [insertPayload, hg]
  · intro entries now
    simp [updatePayload, hg]

/-- Witness for C10 with both options present and zero. -/
theorem claim_C10_witness :
    expGuard ⟨some 0, some 0⟩ = false
    ∧ putPayload (.obj [("a", JValue.num 1)]) JValue.null ⟨some 0, some 0⟩ 99 =
        .obj [("items", .arr (putItemsArray (.obj [("a", JValue.num 1)])
          JValue.null))]
    ∧ updatePayload [("a", JValue.num 1)] ⟨some 0, some 0⟩ 99 =
        .obj [("updates", (processUpdates [("a", JValue.num 1)]).toJValue)] :=
  ⟨(claim_C10 (some 0) (some 0) rfl rfl).1,
   (claim_C10 (some 0) (some 0) rfl rfl).2.1 _ _ 99,
   (claim_C10 (some 0) (some 0) rfl rfl).2.2.2 _ 99⟩

end ContiguityBase
